import Mathlib

/-!
Shallow embedding of the mushroom-rl repository snapshot:
`src/PyPi/core/core.py` (the `Core` interaction loop) and
`src/mushroom_rl/algorithms/value/td/sarsa_lambda.py` (the `SARSALambda`
per-transition update).

States, actions, agent internals and callbacks are abstract type parameters;
the environment is a deterministic capability record (`MDP`), the agent a
capability record (`Agent`).  Rewards and table entries are rationals.
-/

/-- A dataset sample, as built in `Core._step`:
`(state, action, reward, next_state, absorbing, last)`. -/
structure Transition (σ α : Type) where
  state : σ
  action : α
  reward : ℚ
  next_state : σ
  absorbing : Bool
  last : Bool
deriving DecidableEq, Repr

/-- Environment capability set used by `Core`: `reset()`, `reset(initial_state)`,
`step(action) -> (next_state, reward, absorbing, info)` (info dropped), `horizon`. -/
structure MDP (σ α : Type) where
  reset : σ
  resetTo : σ → σ
  step : σ → α → σ × ℚ × Bool
  horizon : ℕ

/-- Agent capability set used by `Core`: `draw_action(state)` and
`fit(dataset, n_fit_steps)`; `θ` is the internal (learned) state of the agent,
threaded explicitly. -/
structure Agent (θ σ α : Type) where
  draw_action : θ → σ → α
  fit : θ → List (Transition σ α) → ℕ → θ

/-- The mutable attributes of a `Core` object: `self.agent` (its internal
state), `self.callbacks`, `self._state`, `self._total_steps`,
`self._episode_steps`. -/
structure Core (θ σ α γc : Type) where
  agent : θ
  callbacks : List γc
  _state : σ
  _total_steps : ℕ
  _episode_steps : ℕ
deriving DecidableEq, Repr

/-- Raised on the failed configuration `assert`s of `Core.learn` /
`Core.evaluate`. -/
inductive ConfigurationError where
  | configurationError
deriving DecidableEq, Repr

/-- Embedding of `Core._step`: draw an action for the current state, step the environment,
increment `_episode_steps`, compute
`last = not(episode_steps < horizon and not absorbing)`, build the sample,
move `_state` to the next state.  Returns the updated core and the sample
appended to the dataset. -/
def Core._step (m : MDP σ α) (ag : Agent θ σ α) (c : Core θ σ α γc) :
    Core θ σ α γc × Transition σ α :=
  let action := ag.draw_action c.agent c._state
  let sr := m.step c._state action
  let es := c._episode_steps + 1
  let last := !(decide (es < m.horizon) && !sr.2.2)
  ({ c with _state := sr.1, _episode_steps := es },
   ⟨c._state, action, sr.2.1, sr.1, sr.2.2, last⟩)

theorem Core._step_episode_steps (m : MDP σ α) (ag : Agent θ σ α)
    (c : Core θ σ α γc) :
    (Core._step m ag c).1._episode_steps = c._episode_steps + 1 := rfl

theorem Core._step_last (m : MDP σ α) (ag : Agent θ σ α) (c : Core θ σ α γc) :
    (Core._step m ag c).2.last =
      !(decide (c._episode_steps + 1 < m.horizon) &&
        !(m.step c._state (ag.draw_action c.agent c._state)).2.2) := rfl

theorem Core._step_last_false (m : MDP σ α) (ag : Agent θ σ α)
    (c : Core θ σ α γc) (h : (Core._step m ag c).2.last = false) :
    c._episode_steps + 1 < m.horizon := by
  rw [Core._step_last] at h
  simp only [Bool.not_eq_false'] at h
  exact of_decide_eq_true (Bool.and_elim_left h)

/-- The inner `while not self._step(dataset, render): continue` loop of
`Core._move_episodes`: repeat single steps until one reports `last`. -/
def Core.runEpisode (m : MDP σ α) (ag : Agent θ σ α) (c : Core θ σ α γc) :
    Core θ σ α γc × List (Transition σ α) :=
  let p := Core._step m ag c
  if h : p.2.last = true then (p.1, [p.2])
  else
    let q := Core.runEpisode m ag p.1
    (q.1, p.2 :: q.2)
termination_by m.horizon - c._episode_steps
decreasing_by
  have hlt : c._episode_steps + 1 < m.horizon :=
    Core._step_last_false m ag c (Bool.not_eq_true _ ▸ h)
  rw [Core._step_episode_steps]
  omega

/-- The outer loop of `Core._move_episodes`: after each finished episode,
reset the environment and `_episode_steps`, until `how_many` episodes are
collected. -/
def Core.moveEpisodesLoop (m : MDP σ α) (ag : Agent θ σ α) :
    ℕ → Core θ σ α γc → Core θ σ α γc × List (Transition σ α)
  | 0, c => (c, [])
  | n + 1, c =>
    let p := Core.runEpisode m ag c
    let c2 := { p.1 with _state := m.reset, _episode_steps := 0 }
    let q := Core.moveEpisodesLoop m ag n c2
    (q.1, p.2 ++ q.2)

/-- Embedding of `Core._move_episodes`: zero `_episode_steps`, then collect `how_many`
whole episodes. -/
def Core._move_episodes (m : MDP σ α) (ag : Agent θ σ α) (how_many : ℕ)
    (c : Core θ σ α γc) : Core θ σ α γc × List (Transition σ α) :=
  Core.moveEpisodesLoop m ag how_many { c with _episode_steps := 0 }

/-- Embedding of `Core._move_samples`: perform exactly `how_many` single steps; whenever a
step reports `last`, reset the environment and `_episode_steps` and continue. -/
def Core._move_samples (m : MDP σ α) (ag : Agent θ σ α) :
    ℕ → Core θ σ α γc → Core θ σ α γc × List (Transition σ α)
  | 0, c => (c, [])
  | n + 1, c =>
    let p := Core._step m ag c
    let c2 :=
      if p.2.last then { p.1 with _state := m.reset, _episode_steps := 0 }
      else p.1
    let q := Core._move_samples m ag n c2
    (q.1, p.2 :: q.2)

/-- Observable effects of one `learn` iteration: the `agent.fit(dataset,
n_fit_steps)` call and the `c(dataset)` callback invocations. -/
inductive Event (σ α γc : Type) where
  | fit (dataset : List (Transition σ α)) (n_fit_steps : ℕ)
  | callback (cb : γc) (dataset : List (Transition σ α))
deriving DecidableEq, Repr

/-- The samples branch (`iterate_over == "samples"`) of `Core.learn`: per iteration,
collect `how_many` samples, fit the agent, invoke every callback on the
dataset in registration order, then `self._total_steps += 1`. -/
def Core.learnSamplesLoop (m : MDP σ α) (ag : Agent θ σ α)
    (how_many n_fit_steps : ℕ) :
    ℕ → Core θ σ α γc → Core θ σ α γc × List (Event σ α γc)
  | 0, c => (c, [])
  | n + 1, c =>
    let p := Core._move_samples m ag how_many c
    let th := ag.fit p.1.agent p.2 n_fit_steps
    let evs := Event.fit p.2 n_fit_steps ::
      p.1.callbacks.map (fun cb => Event.callback cb p.2)
    let c2 := { p.1 with agent := th, _total_steps := p.1._total_steps + 1 }
    let q := Core.learnSamplesLoop m ag how_many n_fit_steps n c2
    (q.1, evs ++ q.2)

/-- The episodes branch (`iterate_over == "episodes"`) of `Core.learn`: same shape,
without the `_total_steps` increment. -/
def Core.learnEpisodesLoop (m : MDP σ α) (ag : Agent θ σ α)
    (how_many n_fit_steps : ℕ) :
    ℕ → Core θ σ α γc → Core θ σ α γc × List (Event σ α γc)
  | 0, c => (c, [])
  | n + 1, c =>
    let p := Core._move_episodes m ag how_many c
    let th := ag.fit p.1.agent p.2 n_fit_steps
    let evs := Event.fit p.2 n_fit_steps ::
      p.1.callbacks.map (fun cb => Event.callback cb p.2)
    let c2 := { p.1 with agent := th }
    let q := Core.learnEpisodesLoop m ag how_many n_fit_steps n c2
    (q.1, evs ++ q.2)

/-- Embedding of `Core.learn`: the `assert` on `iterate_over` (modelled as a `ConfigurationError` result), then run the
matching iteration loop. -/
def Core.learn (m : MDP σ α) (ag : Agent θ σ α)
    (n_iterations how_many n_fit_steps : ℕ) (iterate_over : String)
    (c : Core θ σ α γc) :
    Except ConfigurationError (Core θ σ α γc × List (Event σ α γc)) :=
  if iterate_over = "samples" ∨ iterate_over = "episodes" then
    if iterate_over = "samples" then
      .ok (Core.learnSamplesLoop m ag how_many n_fit_steps n_iterations c)
    else
      .ok (Core.learnEpisodesLoop m ag how_many n_fit_steps n_iterations c)
  else
    .error .configurationError

/-- The `initial_states is not None` branch of `Core.evaluate`: for each
given initial state, reset the environment to exactly that state and run one
episode. -/
def Core.evalInitialStatesLoop (m : MDP σ α) (ag : Agent θ σ α) :
    List σ → Core θ σ α γc → Core θ σ α γc × List (Transition σ α)
  | [], c => (c, [])
  | s :: rest, c =>
    let c1 := { c with _state := m.resetTo s }
    let p := Core._move_episodes m ag 1 c1
    let q := Core.evalInitialStatesLoop m ag rest p.1
    (q.1, p.2 ++ q.2)

/-- The episodes branch (`iterate_over == "episodes"`) of `Core.evaluate` without
initial states: `how_many` times, reset the environment and run one episode. -/
def Core.evalEpisodesLoop (m : MDP σ α) (ag : Agent θ σ α) :
    ℕ → Core θ σ α γc → Core θ σ α γc × List (Transition σ α)
  | 0, c => (c, [])
  | n + 1, c =>
    let c1 := { c with _state := m.reset }
    let p := Core._move_episodes m ag 1 c1
    let q := Core.evalEpisodesLoop m ag n p.1
    (q.1, p.2 ++ q.2)

/-- The single `self._state = self.mdp.reset()` performed by `Core.evaluate`
before its sample-collection loop.  Note that it does NOT touch
`_episode_steps`. -/
def Core.evalSamplesEntry (m : MDP σ α) (c : Core θ σ α γc) :
    Core θ σ α γc :=
  { c with _state := m.reset }

/-- The sample-collection loop of `Core.evaluate`: `how_many` calls to
`_move_samples(1)`. -/
def Core.evalSamplesLoop (m : MDP σ α) (ag : Agent θ σ α) :
    ℕ → Core θ σ α γc → Core θ σ α γc × List (Transition σ α)
  | 0, c => (c, [])
  | n + 1, c =>
    let p := Core._move_samples m ag 1 c
    let q := Core.evalSamplesLoop m ag n p.1
    (q.1, p.2 ++ q.2)

/-- Embedding of `Core.evaluate`.  With `initial_states` given it asserts
`iterate_over == "episodes"` and runs one episode per initial state;
otherwise `"episodes"` runs `how_many` episodes from default resets, and ANY
other value of `iterate_over` falls into the sample branch: one environment
reset, then `how_many` single-sample collections. -/
def Core.evaluate (m : MDP σ α) (ag : Agent θ σ α) (how_many : ℕ)
    (iterate_over : String) (initial_states : Option (List σ))
    (c : Core θ σ α γc) :
    Except ConfigurationError (Core θ σ α γc × List (Transition σ α)) :=
  match initial_states with
  | some states =>
    if iterate_over = "episodes" then
      .ok (Core.evalInitialStatesLoop m ag states c)
    else
      .error .configurationError
  | none =>
    if iterate_over = "episodes" then
      .ok (Core.evalEpisodesLoop m ag how_many c)
    else
      .ok (Core.evalSamplesLoop m ag how_many (Core.evalSamplesEntry m c))

/-- Embedding of `Core.reset`: re-derive `_state` from the default environment reset and
zero both counters. -/
def Core.reset (m : MDP σ α) (c : Core θ σ α γc) : Core θ σ α γc :=
  { c with _state := m.reset, _total_steps := 0, _episode_steps := 0 }

/-!
The SARSA(λ) per-transition update of
`src/mushroom_rl/algorithms/value/td/sarsa_lambda.py`.  The `Table` bulk view
and the `EligibilityTrace` operations live in
`mushroom_rl/utils/table.py` / `mushroom_rl/utils/eligibility_trace.py`,
which are not part of the repository snapshot; they are modelled from the
spec where noted.  Tables are total maps `(state, action) → ℚ`.
-/

/-- The mutable numeric state of the SARSA(λ) algorithm: the value table `Q` and
the eligibility trace `e` (same shape). -/
structure SarsaState (S A : Type) where
  Q : S → A → ℚ
  e : S → A → ℚ

/-- Modelled from the spec: `EligibilityTrace.update(state, action)` in the
replacing variant "sets the entry for `(state,action)` to 1.0, leaves all
other entries unchanged"; the implementing file
`mushroom_rl/utils/eligibility_trace.py` is missing from the snapshot. -/
def EligibilityTrace.replacingUpdate [DecidableEq S] [DecidableEq A]
    (e : S → A → ℚ) (s : S) (a : A) : S → A → ℚ :=
  fun x y => if x = s ∧ y = a then 1 else e x y

/-- The conditional table read
`q_next = self.Q[next_state, self.next_action] if not absorbing else 0.`
of `SARSALambda._update`; the table argument is only consulted in the
non-absorbing branch. -/
def SARSALambda.qNext (Q : S → A → ℚ) (next_state : S) (next_action : A)
    (absorbing : Bool) : ℚ :=
  if absorbing then 0 else Q next_state next_action

/-- Embedding of `SARSALambda._update(state, action, reward, next_state, absorbing)`:
read `q_current`, compute `q_next` (0 when absorbing), form the TD error
`delta`, record visitation in the trace, apply
`Q.table += alpha(state, action) * delta * e.table`, and only then decay
`e.table *= gamma * lambda`.  The drawn `next_action` is the external
policy output, passed in; `alpha` is the learning-rate schedule evaluated
at the current pair. -/
def SARSALambda._update [DecidableEq S] [DecidableEq A]
    (gamma lambda_coeff : ℚ) (alpha : S → A → ℚ) (next_action : A)
    (st : SarsaState S A) (state : S) (action : A) (reward : ℚ)
    (next_state : S) (absorbing : Bool) : SarsaState S A :=
  let q_current := st.Q state action
  let q_next := SARSALambda.qNext st.Q next_state next_action absorbing
  let delta := reward + gamma * q_next - q_current
  let e1 := EligibilityTrace.replacingUpdate st.e state action
  let Q1 := fun x y => st.Q x y + alpha state action * delta * e1 x y
  let e2 := fun x y => e1 x y * (gamma * lambda_coeff)
  ⟨Q1, e2⟩

/-- Embedding of `SARSALambda.episode_start`, i.e. `self.e.reset()` — modelled from the spec:
`EligibilityTrace.reset` "zero all entries" (the implementing file is missing
from the snapshot); the table is untouched. -/
def SARSALambda.episode_start (st : SarsaState S A) : SarsaState S A :=
  ⟨st.Q, fun _ _ => 0⟩

/-- One transition worth of inputs to `SARSALambda._update`, with the
externally drawn on-policy `next_action`. -/
structure UpdateInput (S A : Type) where
  state : S
  action : A
  reward : ℚ
  next_state : S
  next_action : A
  absorbing : Bool

/-- Apply `SARSALambda._update` to one packaged transition. -/
def SARSALambda.applyInput [DecidableEq S] [DecidableEq A]
    (gamma lambda_coeff : ℚ) (alpha : S → A → ℚ) (st : SarsaState S A)
    (u : UpdateInput S A) : SarsaState S A :=
  SARSALambda._update gamma lambda_coeff alpha u.next_action st
    u.state u.action u.reward u.next_state u.absorbing

/-- Process a list of transitions in order, as `fit` does during one
episode. -/
def SARSALambda.runUpdates [DecidableEq S] [DecidableEq A]
    (gamma lambda_coeff : ℚ) (alpha : S → A → ℚ) (st : SarsaState S A)
    (us : List (UpdateInput S A)) : SarsaState S A :=
  us.foldl (SARSALambda.applyInput gamma lambda_coeff alpha) st

/-!
Helper lemmas about the collection loops.
-/

theorem Core.runEpisode_eq (m : MDP σ α) (ag : Agent θ σ α)
    (c : Core θ σ α γc) :
    Core.runEpisode m ag c =
      (let p := Core._step m ag c
       if p.2.last = true then (p.1, [p.2])
       else
         let q := Core.runEpisode m ag p.1
         (q.1, p.2 :: q.2)) := by
  rw [Core.runEpisode]
  rfl

/-- Every episode dataset splits as initial transitions with `last = false`
followed by one final transition with `last = true`. -/
theorem Core.runEpisode_shape (m : MDP σ α) (ag : Agent θ σ α) :
    ∀ c : Core θ σ α γc, ∃ l t, (Core.runEpisode m ag c).2 = l ++ [t] ∧
      (∀ x ∈ l, x.last = false) ∧ t.last = true := by
  intro c
  induction c using Core.runEpisode.induct m ag with
  | case1 c p h =>
    refine ⟨[], (Core._step m ag c).2, ?_, by simp, h⟩
    rw [Core.runEpisode_eq]
    simp only []
    rw [if_pos h]
    rfl
  | case2 c p h ih =>
    obtain ⟨l, t, hlt, hall, htrue⟩ := ih
    refine ⟨(Core._step m ag c).2 :: l, t, ?_, ?_, htrue⟩
    · rw [Core.runEpisode_eq]
      simp only []
      rw [if_neg h]
      simp [hlt]
    · intro x hx
      rcases List.mem_cons.mp hx with hx | hx
      · subst hx; exact Bool.not_eq_true _ ▸ h
      · exact hall x hx

theorem Core.runEpisode_ne_nil (m : MDP σ α) (ag : Agent θ σ α)
    (c : Core θ σ α γc) : (Core.runEpisode m ag c).2 ≠ [] := by
  obtain ⟨l, t, hlt, -, -⟩ := Core.runEpisode_shape m ag c
  simp [hlt]

/-- Exactly one `last = true` transition per episode. -/
theorem Core.runEpisode_countP_last (m : MDP σ α) (ag : Agent θ σ α)
    (c : Core θ σ α γc) :
    (Core.runEpisode m ag c).2.countP (fun t => t.last) = 1 := by
  obtain ⟨l, t, hlt, hall, htrue⟩ := Core.runEpisode_shape m ag c
  rw [hlt, List.countP_append, List.countP_eq_zero.mpr, List.countP_singleton]
  · simp [htrue]
  · intro x hx
    simp [hall x hx]

theorem Core.runEpisode_agent (m : MDP σ α) (ag : Agent θ σ α) :
    ∀ c : Core θ σ α γc, (Core.runEpisode m ag c).1.agent = c.agent ∧
      (Core.runEpisode m ag c).1.callbacks = c.callbacks ∧
      (Core.runEpisode m ag c).1._total_steps = c._total_steps := by
  intro c
  induction c using Core.runEpisode.induct m ag with
  | case1 c p h =>
    rw [Core.runEpisode_eq]
    simp only []
    rw [if_pos h]
    exact ⟨rfl, rfl, rfl⟩
  | case2 c p h ih =>
    rw [Core.runEpisode_eq]
    simp only []
    rw [if_neg h]
    exact ih

theorem Core.moveEpisodesLoop_frame (m : MDP σ α) (ag : Agent θ σ α) :
    ∀ (n : ℕ) (c : Core θ σ α γc),
      (Core.moveEpisodesLoop m ag n c).1.agent = c.agent ∧
      (Core.moveEpisodesLoop m ag n c).1.callbacks = c.callbacks ∧
      (Core.moveEpisodesLoop m ag n c).1._total_steps = c._total_steps := by
  intro n
  induction n with
  | zero => exact fun c => ⟨rfl, rfl, rfl⟩
  | succ n ih =>
    intro c
    obtain ⟨h1, h2, h3⟩ := Core.runEpisode_agent m ag c
    obtain ⟨g1, g2, g3⟩ := ih
      { (Core.runEpisode m ag c).1 with
          _state := m.reset, _episode_steps := 0 }
    simp only [Core.moveEpisodesLoop]
    exact ⟨g1.trans h1, g2.trans h2, g3.trans h3⟩

/-- Episode-mode collection of `n` episodes yields exactly `n` transitions
with `last = true`. -/
theorem Core.moveEpisodesLoop_countP (m : MDP σ α) (ag : Agent θ σ α) :
    ∀ (n : ℕ) (c : Core θ σ α γc),
      (Core.moveEpisodesLoop m ag n c).2.countP (fun t => t.last) = n := by
  intro n
  induction n with
  | zero => exact fun c => rfl
  | succ n ih =>
    intro c
    simp only [Core.moveEpisodesLoop]
    rw [List.countP_append, Core.runEpisode_countP_last, ih]
    omega

theorem Core._move_episodes_countP (m : MDP σ α) (ag : Agent θ σ α)
    (n : ℕ) (c : Core θ σ α γc) :
    (Core._move_episodes m ag n c).2.countP (fun t => t.last) = n :=
  Core.moveEpisodesLoop_countP m ag n _

/-- Sample-mode collection of `n` requested steps yields exactly `n`
transitions. -/
theorem Core._move_samples_length (m : MDP σ α) (ag : Agent θ σ α) :
    ∀ (n : ℕ) (c : Core θ σ α γc),
      (Core._move_samples m ag n c).2.length = n := by
  intro n
  induction n with
  | zero => exact fun c => rfl
  | succ n ih =>
    intro c
    simp only [Core._move_samples]
    rw [List.length_cons, ih]

theorem Core._move_samples_frame (m : MDP σ α) (ag : Agent θ σ α) :
    ∀ (n : ℕ) (c : Core θ σ α γc),
      (Core._move_samples m ag n c).1.agent = c.agent ∧
      (Core._move_samples m ag n c).1.callbacks = c.callbacks ∧
      (Core._move_samples m ag n c).1._total_steps = c._total_steps := by
  intro n
  induction n with
  | zero => exact fun c => ⟨rfl, rfl, rfl⟩
  | succ n ih =>
    intro c
    simp only [Core._move_samples]
    obtain ⟨g1, g2, g3⟩ := ih
      (if (Core._step m ag c).2.last then
        { (Core._step m ag c).1 with
            _state := m.reset, _episode_steps := 0 }
       else (Core._step m ag c).1)
    refine ⟨g1.trans ?_, g2.trans ?_, g3.trans ?_⟩ <;> split <;> rfl

theorem Core._step_state (m : MDP σ α) (ag : Agent θ σ α)
    (c : Core θ σ α γc) : (Core._step m ag c).2.state = c._state := rfl

theorem Core._step_next_state (m : MDP σ α) (ag : Agent θ σ α)
    (c : Core θ σ α γc) :
    (Core._step m ag c).1._state = (Core._step m ag c).2.next_state := rfl

theorem Core._step_absorbing (m : MDP σ α) (ag : Agent θ σ α)
    (c : Core θ σ α γc) :
    (Core._step m ag c).2.absorbing =
      (m.step c._state (ag.draw_action c.agent c._state)).2.2 := rfl

theorem Core._step_last_of_no_absorbing (m : MDP σ α) (ag : Agent θ σ α)
    (habs : ∀ s a, (m.step s a).2.2 = false) (c : Core θ σ α γc) :
    (Core._step m ag c).2.last =
      !decide (c._episode_steps + 1 < m.horizon) := by
  rw [Core._step_last, habs]
  simp

/-- With no absorbing states, an episode started with `k` steps already on
the counter and `k < horizon` produces exactly `horizon - k` transitions,
all `last = false` except the final one. -/
theorem Core.runEpisode_lasts_of_no_absorbing (m : MDP σ α)
    (ag : Agent θ σ α) (habs : ∀ s a, (m.step s a).2.2 = false) :
    ∀ c : Core θ σ α γc, c._episode_steps < m.horizon →
      (Core.runEpisode m ag c).2.map (fun t => t.last) =
        List.replicate (m.horizon - c._episode_steps - 1) false ++ [true] := by
  intro c
  induction c using Core.runEpisode.induct m ag with
  | case1 c p h =>
    intro hlt
    have htrue : (Core._step m ag c).2.last = true := h
    have hl := Core._step_last_of_no_absorbing m ag habs c
    rw [htrue, eq_comm, Bool.not_eq_true', decide_eq_false_iff_not] at hl
    have hz : m.horizon - c._episode_steps - 1 = 0 := by omega
    rw [Core.runEpisode_eq]
    simp only []
    rw [if_pos h, hz]
    simp only [List.replicate_zero, List.nil_append, List.map_cons,
      List.map_nil]
    rw [htrue]
  | case2 c p h ih =>
    intro hlt
    have hfalse : (Core._step m ag c).2.last = false :=
      Bool.not_eq_true _ ▸ h
    have hl := Core._step_last_of_no_absorbing m ag habs c
    rw [hfalse, eq_comm, Bool.not_eq_false', decide_eq_true_eq] at hl
    have hih : List.map (fun t => t.last)
        (Core.runEpisode m ag (Core._step m ag c).1).2 =
        List.replicate
          (m.horizon - (Core._step m ag c).1._episode_steps - 1) false ++
          [true] := ih hl
    rw [Core.runEpisode_eq]
    simp only []
    rw [if_neg h]
    simp only [List.map_cons]
    rw [hih, Core._step_episode_steps, hfalse]
    have harith : m.horizon - c._episode_steps - 1 =
        (m.horizon - (c._episode_steps + 1) - 1) + 1 := by omega
    rw [harith, List.replicate_succ]
    rfl

/-- Episode transitions chain: the first transition starts at the current
state of the loop and the `next_state` of each transition is the `state` of
the following one. -/
theorem Core.runEpisode_chain (m : MDP σ α) (ag : Agent θ σ α) :
    ∀ c : Core θ σ α γc,
      ((Core.runEpisode m ag c).2.head?.map Transition.state =
        some c._state) ∧
      List.Chain' (fun t u => t.next_state = u.state)
        (Core.runEpisode m ag c).2 := by
  intro c
  induction c using Core.runEpisode.induct m ag with
  | case1 c p h =>
    rw [Core.runEpisode_eq]
    simp only []
    rw [if_pos h]
    exact ⟨rfl, List.chain'_singleton _⟩
  | case2 c p h ih =>
    obtain ⟨ih1, ih2⟩ := ih
    rw [Core.runEpisode_eq]
    simp only []
    rw [if_neg h]
    refine ⟨rfl, List.chain'_cons'.mpr ⟨?_, ih2⟩⟩
    intro b hb
    have hsome : (Core.runEpisode m ag (Core._step m ag c).1).2.head? =
        some b := hb
    rw [hsome] at ih1
    simp only [Option.map_some'] at ih1
    have hbs : b.state = (Core._step m ag c).1._state := Option.some.inj ih1
    rw [hbs]
    exact (Core._step_next_state m ag c).symm

theorem Core._move_episodes_frame (m : MDP σ α) (ag : Agent θ σ α)
    (n : ℕ) (c : Core θ σ α γc) :
    (Core._move_episodes m ag n c).1.agent = c.agent ∧
    (Core._move_episodes m ag n c).1.callbacks = c.callbacks ∧
    (Core._move_episodes m ag n c).1._total_steps = c._total_steps :=
  Core.moveEpisodesLoop_frame m ag n _

/-- Per-iteration event block of one `learn` iteration: the `fit` call,
then every callback in registration order, all on the same dataset. -/
def learnIterationBlock (n_fit_steps : ℕ) (callbacks : List γc)
    (ds : List (Transition σ α)) : List (Event σ α γc) :=
  Event.fit ds n_fit_steps ::
    callbacks.map (fun cb => Event.callback cb ds)

theorem Core.learnSamplesLoop_total_steps (m : MDP σ α) (ag : Agent θ σ α)
    (how_many n_fit_steps : ℕ) :
    ∀ (n : ℕ) (c : Core θ σ α γc),
      (Core.learnSamplesLoop m ag how_many n_fit_steps n c).1._total_steps =
        c._total_steps + n := by
  intro n
  induction n with
  | zero => exact fun c => rfl
  | succ n ih =>
    intro c
    simp only [Core.learnSamplesLoop]
    rw [ih]
    simp only []
    rw [(Core._move_samples_frame m ag how_many c).2.2]
    omega

theorem Core.learnSamplesLoop_events (m : MDP σ α) (ag : Agent θ σ α)
    (how_many n_fit_steps : ℕ) :
    ∀ (n : ℕ) (c : Core θ σ α γc) (cbs : List γc), c.callbacks = cbs →
      ∃ dss : List (List (Transition σ α)), dss.length = n ∧
        (Core.learnSamplesLoop m ag how_many n_fit_steps n c).2 =
          (dss.map (learnIterationBlock n_fit_steps cbs)).flatten := by
  intro n
  induction n with
  | zero => exact fun c cbs _ => ⟨[], rfl, rfl⟩
  | succ n ih =>
    intro c cbs hcb
    have hcb2 : (Core._move_samples m ag how_many c).1.callbacks = cbs :=
      ((Core._move_samples_frame m ag how_many c).2.1).trans hcb
    obtain ⟨dss, hlen, hev⟩ := ih
      { agent := ag.fit (Core._move_samples m ag how_many c).1.agent
          (Core._move_samples m ag how_many c).2 n_fit_steps,
        callbacks := (Core._move_samples m ag how_many c).1.callbacks,
        _state := (Core._move_samples m ag how_many c).1._state,
        _total_steps :=
          (Core._move_samples m ag how_many c).1._total_steps + 1,
        _episode_steps :=
          (Core._move_samples m ag how_many c).1._episode_steps }
      cbs hcb2
    refine ⟨(Core._move_samples m ag how_many c).2 :: dss, by simp [hlen], ?_⟩
    show Event.fit (Core._move_samples m ag how_many c).2 n_fit_steps ::
        ((Core._move_samples m ag how_many c).1.callbacks.map
          (fun cb =>
            Event.callback cb (Core._move_samples m ag how_many c).2) ++
         (Core.learnSamplesLoop m ag how_many n_fit_steps n
           { agent := ag.fit (Core._move_samples m ag how_many c).1.agent
               (Core._move_samples m ag how_many c).2 n_fit_steps,
             callbacks := (Core._move_samples m ag how_many c).1.callbacks,
             _state := (Core._move_samples m ag how_many c).1._state,
             _total_steps :=
               (Core._move_samples m ag how_many c).1._total_steps + 1,
             _episode_steps :=
               (Core._move_samples m ag how_many c).1._episode_steps }).2) =
      _
    rw [hcb2] at hev ⊢
    rw [hev]
    simp only [List.map_cons, List.flatten_cons]
    rfl

theorem Core.learnEpisodesLoop_total_steps (m : MDP σ α) (ag : Agent θ σ α)
    (how_many n_fit_steps : ℕ) :
    ∀ (n : ℕ) (c : Core θ σ α γc),
      (Core.learnEpisodesLoop m ag how_many n_fit_steps n c).1._total_steps =
        c._total_steps := by
  intro n
  induction n with
  | zero => exact fun c => rfl
  | succ n ih =>
    intro c
    simp only [Core.learnEpisodesLoop]
    rw [ih]
    simp only []
    rw [(Core._move_episodes_frame m ag how_many c).2.2]

theorem Core.learnEpisodesLoop_events (m : MDP σ α) (ag : Agent θ σ α)
    (how_many n_fit_steps : ℕ) :
    ∀ (n : ℕ) (c : Core θ σ α γc) (cbs : List γc), c.callbacks = cbs →
      ∃ dss : List (List (Transition σ α)), dss.length = n ∧
        (Core.learnEpisodesLoop m ag how_many n_fit_steps n c).2 =
          (dss.map (learnIterationBlock n_fit_steps cbs)).flatten := by
  intro n
  induction n with
  | zero => exact fun c cbs _ => ⟨[], rfl, rfl⟩
  | succ n ih =>
    intro c cbs hcb
    have hcb2 : (Core._move_episodes m ag how_many c).1.callbacks = cbs :=
      ((Core._move_episodes_frame m ag how_many c).2.1).trans hcb
    obtain ⟨dss, hlen, hev⟩ := ih
      { agent := ag.fit (Core._move_episodes m ag how_many c).1.agent
          (Core._move_episodes m ag how_many c).2 n_fit_steps,
        callbacks := (Core._move_episodes m ag how_many c).1.callbacks,
        _state := (Core._move_episodes m ag how_many c).1._state,
        _total_steps := (Core._move_episodes m ag how_many c).1._total_steps,
        _episode_steps :=
          (Core._move_episodes m ag how_many c).1._episode_steps }
      cbs hcb2
    refine ⟨(Core._move_episodes m ag how_many c).2 :: dss,
      by simp [hlen], ?_⟩
    show Event.fit (Core._move_episodes m ag how_many c).2 n_fit_steps ::
        ((Core._move_episodes m ag how_many c).1.callbacks.map
          (fun cb =>
            Event.callback cb (Core._move_episodes m ag how_many c).2) ++
         (Core.learnEpisodesLoop m ag how_many n_fit_steps n
           { agent := ag.fit (Core._move_episodes m ag how_many c).1.agent
               (Core._move_episodes m ag how_many c).2 n_fit_steps,
             callbacks := (Core._move_episodes m ag how_many c).1.callbacks,
             _state := (Core._move_episodes m ag how_many c).1._state,
             _total_steps :=
               (Core._move_episodes m ag how_many c).1._total_steps,
             _episode_steps :=
               (Core._move_episodes m ag how_many c).1._episode_steps }).2) =
      _
    rw [hcb2] at hev ⊢
    rw [hev]
    simp only [List.map_cons, List.flatten_cons]
    rfl


/-!
Concrete instances used to evaluate the development on small inputs: a
one-state, one-action environment that never absorbs, a trivial agent, and a
fresh core.
-/

/-- Never-absorbing single-state environment with horizon 2. -/
def mEx2 : MDP Unit Unit :=
  ⟨(), fun _ => (), fun _ _ => ((), 0, false), 2⟩

/-- Never-absorbing single-state environment with horizon 3. -/
def mEx3 : MDP Unit Unit :=
  ⟨(), fun _ => (), fun _ _ => ((), 0, false), 3⟩

/-- Trivial agent over `Unit` internal state. -/
def agEx : Agent Unit Unit Unit :=
  ⟨fun _ _ => (), fun th _ _ => th⟩

/-- Freshly constructed core: default reset state, both counters zero, no
callbacks. -/
def cEx0 : Core Unit Unit Unit Unit := ⟨(), [], (), 0, 0⟩

/-- Zero-initialized SARSA state over a 2×2 table. -/
def st0Ex : SarsaState (Fin 2) (Fin 2) := ⟨fun _ _ => 0, fun _ _ => 0⟩

/-!
Claim theorems.
-/

/-- C1: in `SARSALambda._update`, the TD error is
`reward + gamma * q_next - q_current` with `q_current` the table entry at
`(state, action)` read before any mutation and `q_next` the table entry at
`(next_state, next_action)` when not absorbing and exactly 0 when absorbing
(the table argument of `qNext` is irrelevant in the absorbing case); the
table is incremented by `alpha(state, action) * delta * trace` using the
entire (just-visited-updated) trace array, and only after that increment is
the trace multiplied elementwise by `gamma * lambda`. -/
theorem sarsa_update_td_error_and_order [DecidableEq S] [DecidableEq A]
    (gamma lambda_coeff : ℚ) (alpha : S → A → ℚ) (next_action : A)
    (st : SarsaState S A) (state : S) (action : A) (reward : ℚ)
    (next_state : S) (absorbing : Bool) :
    ((SARSALambda._update gamma lambda_coeff alpha next_action st state
        action reward next_state absorbing).Q =
      fun x y => st.Q x y + alpha state action *
        (reward + gamma *
          SARSALambda.qNext st.Q next_state next_action absorbing -
          st.Q state action) *
        EligibilityTrace.replacingUpdate st.e state action x y) ∧
    ((SARSALambda._update gamma lambda_coeff alpha next_action st state
        action reward next_state absorbing).e =
      fun x y => EligibilityTrace.replacingUpdate st.e state action x y *
        (gamma * lambda_coeff)) ∧
    (∀ Q : S → A → ℚ, SARSALambda.qNext Q next_state next_action true = 0) ∧
    (SARSALambda.qNext st.Q next_state next_action false =
      st.Q next_state next_action) :=
  ⟨rfl, rfl, fun _ => rfl, rfl⟩

/-- C2: `Core._step` increments `episode_steps` first and computes the
`last` flag of the sample as `absorbing OR episode_steps ≥ horizon` from the
incremented value; only the absorbing flag zeroes the bootstrap target
(`qNext`) in the TD update, and horizon truncation never does.  With
`horizon = 3` and `absorbing` never true, one collected episode contains
exactly 3 transitions whose `last` flags are `[false, false, true]`. -/
theorem step_counts_and_horizon_three_episode (m : MDP σ α)
    (ag : Agent θ σ α) (habs : ∀ s a, (m.step s a).2.2 = false)
    (hH : m.horizon = 3) (c : Core θ σ α γc)
    (hc : c._episode_steps = 0) :
    (∀ c' : Core θ σ α γc,
      (Core._step m ag c').1._episode_steps = c'._episode_steps + 1 ∧
      (Core._step m ag c').2.last =
        ((Core._step m ag c').2.absorbing ||
          decide (m.horizon ≤ c'._episode_steps + 1))) ∧
    (∀ (Q : σ → α → ℚ) (s' : σ) (na : α),
      SARSALambda.qNext Q s' na true = 0 ∧
      SARSALambda.qNext Q s' na false = Q s' na) ∧
    ((Core.runEpisode m ag c).2.map (fun t => t.last) =
      [false, false, true]) ∧
    ((Core.runEpisode m ag c).2.length = 3) := by
  have hmap := Core.runEpisode_lasts_of_no_absorbing m ag habs c
    (by rw [hH, hc]; omega)
  rw [hH, hc] at hmap
  norm_num at hmap
  refine ⟨?_, fun Q s' na => ⟨rfl, rfl⟩, hmap, ?_⟩
  · intro c'
    refine ⟨rfl, ?_⟩
    rw [Core._step_last, Core._step_absorbing]
    cases hb : (m.step c'._state (ag.draw_action c'.agent c'._state)).2.2 with
    | false =>
      simp only [Bool.not_false, Bool.and_true, Bool.false_or]
      rw [← decide_not]
      exact decide_eq_decide.mpr Nat.not_lt
    | true =>
      simp only [Bool.not_true, Bool.and_false, Bool.not_false, Bool.true_or]
  · have hlen := congrArg List.length hmap
    simpa using hlen

/-- Witness for C2 at the concrete horizon-3 never-absorbing environment. -/
theorem step_counts_and_horizon_three_episode_instance :
    mEx3.horizon = 3 ∧ cEx0._episode_steps = 0 ∧
    ((Core.runEpisode mEx3 agEx cEx0).2.map (fun t => t.last) =
      [false, false, true]) ∧
    ((Core.runEpisode mEx3 agEx cEx0).2.length = 3) :=
  ⟨rfl, rfl,
    (step_counts_and_horizon_three_episode mEx3 agEx (fun _ _ => rfl) rfl
      cEx0 rfl).2.2.1,
    (step_counts_and_horizon_three_episode mEx3 agEx (fun _ _ => rfl) rfl
      cEx0 rfl).2.2.2⟩

/-- C4: sample-mode collection of `N > 0` steps returns exactly `N`
transitions; episode-mode collection of `N` episodes returns a dataset with
exactly `N` transitions whose `last` is true, and within each collected
episode the final transition has `last = true` while every earlier one has
`last = false`. -/
theorem collection_counts (m : MDP σ α) (ag : Agent θ σ α) (N : ℕ)
    (hN : 0 < N) (c : Core θ σ α γc) :
    ((Core._move_samples m ag N c).2.length = N) ∧
    ((Core._move_episodes m ag N c).2.countP (fun t => t.last) = N) ∧
    (∀ c' : Core θ σ α γc, ∃ l t,
      (Core.runEpisode m ag c').2 = l ++ [t] ∧
      (∀ x ∈ l, x.last = false) ∧ t.last = true) :=
  ⟨Core._move_samples_length m ag N c,
   Core._move_episodes_countP m ag N c,
   Core.runEpisode_shape m ag⟩

/-- Witness for C4 with `N = 2` on the concrete environment. -/
theorem collection_counts_instance :
    0 < 2 ∧
    ((Core._move_samples mEx2 agEx 2 cEx0).2.length = 2) ∧
    ((Core._move_episodes mEx2 agEx 2 cEx0).2.countP
      (fun t => t.last) = 2) :=
  ⟨by decide, (collection_counts mEx2 agEx 2 (by decide) cEx0).1,
    (collection_counts mEx2 agEx 2 (by decide) cEx0).2.1⟩

/-- C9: `Core.reset` re-derives the current state from the default
environment reset, zeroes both counters and changes nothing else (agent —
hence any learned value table — and callback list are untouched); `learn`
with zero iterations then returns the core unchanged with no fit or
callback events. -/
theorem reset_frame_and_zero_iterations (m : MDP σ α) (ag : Agent θ σ α)
    (how_many n_fit_steps : ℕ) (c : Core θ σ α γc) :
    ((Core.reset m c).agent = c.agent) ∧
    ((Core.reset m c).callbacks = c.callbacks) ∧
    ((Core.reset m c)._state = m.reset) ∧
    ((Core.reset m c)._total_steps = 0) ∧
    ((Core.reset m c)._episode_steps = 0) ∧
    (Core.learn m ag 0 how_many n_fit_steps "samples" (Core.reset m c) =
      .ok (Core.reset m c, [])) ∧
    (Core.learn m ag 0 how_many n_fit_steps "episodes" (Core.reset m c) =
      .ok (Core.reset m c, [])) := by
  refine ⟨rfl, rfl, rfl, rfl, rfl, ?_, ?_⟩ <;> simp [Core.learn] <;> rfl

/-- C10: within one collected episode, the first transition carries the
current state of the loop, each step records the pre-step current
state and moves the cursor to its `next_state`, and consecutive transitions
chain: `next_state` of one equals `state` of the next. -/
theorem episode_transition_chain (m : MDP σ α) (ag : Agent θ σ α)
    (c : Core θ σ α γc) :
    ((Core._step m ag c).2.state = c._state) ∧
    ((Core._step m ag c).1._state = (Core._step m ag c).2.next_state) ∧
    ((Core.runEpisode m ag c).2.head?.map Transition.state =
      some c._state) ∧
    List.Chain' (fun t u => t.next_state = u.state)
      (Core.runEpisode m ag c).2 :=
  ⟨rfl, rfl, (Core.runEpisode_chain m ag c).1, (Core.runEpisode_chain m ag c).2⟩

/-- C3 demonstration: after one sample-mode `learn` iteration of one step on
a never-absorbing horizon-2 environment, the `episode_steps` counter is 1;
`evaluate` in samples mode then resets the environment (its entry point)
WITHOUT zeroing `episode_steps`, so the first evaluated transition is
truncated (`last = true`) after a single step, whereas stepping from the
same reset boundary with the counter zeroed yields `last = false`. -/
theorem evaluate_samples_entry_stale_episode_steps :
    ((Core.learnSamplesLoop mEx2 agEx 1 1 1 cEx0).1._episode_steps = 1) ∧
    ((Core.evalSamplesEntry mEx2
        (Core.learnSamplesLoop mEx2 agEx 1 1 1 cEx0).1)._episode_steps
      = 1) ∧
    ((Core.evaluate mEx2 agEx 1 "samples" none
        (Core.learnSamplesLoop mEx2 agEx 1 1 1 cEx0).1).toOption.map
      (fun p => p.2.map (fun t => t.last)) = some [true]) ∧
    ((Core._step mEx2 agEx
        { (Core.learnSamplesLoop mEx2 agEx 1 1 1 cEx0).1 with
            _state := mEx2.reset, _episode_steps := 0 }).2.last = false) :=
  ⟨rfl, rfl, rfl, rfl⟩

/-- C5 counterexample: `evaluate` with the invalid `iterate_over = "foo"`
and no initial states does NOT raise a configuration error before
interacting — it succeeds and collects one transition. -/
theorem evaluate_invalid_iterate_over_collects :
    ((Core.evaluate mEx2 agEx 1 "foo" none cEx0).isOk = true) ∧
    ((Core.evaluate mEx2 agEx 1 "foo" none cEx0).toOption.map
      (fun p => p.2.length) = some 1) :=
  ⟨rfl, rfl⟩

/-- C5 amended: `learn` fails with a `ConfigurationError` (before any loop
body runs) whenever `iterate_over` is neither `"samples"` nor `"episodes"`,
and `evaluate` fails that way when `initial_states` is supplied together
with any `iterate_over` other than `"episodes"` (in particular
`"samples"`); but `evaluate` without initial states treats every
non-`"episodes"` value, valid or not, as the samples branch and collects
samples without error. -/
theorem configuration_error_boundaries (m : MDP σ α) (ag : Agent θ σ α)
    (n_iterations how_many n_fit_steps : ℕ) (iterate_over : String)
    (c : Core θ σ α γc) (h2 : iterate_over ≠ "episodes") :
    (iterate_over ≠ "samples" →
      Core.learn m ag n_iterations how_many n_fit_steps iterate_over c =
        .error .configurationError) ∧
    (∀ states : List σ,
      Core.evaluate m ag how_many iterate_over (some states) c =
        .error .configurationError) ∧
    (Core.evaluate m ag how_many iterate_over none c =
      .ok (Core.evalSamplesLoop m ag how_many
        (Core.evalSamplesEntry m c))) := by
  refine ⟨fun h1 => ?_, fun states => ?_, ?_⟩
  · simp [Core.learn, h1, h2]
  · simp [Core.evaluate, h2]
  · simp [Core.evaluate, h2]

/-- Witness for the amended C5: `iterate_over = "samples"` with initial
states makes `evaluate` raise, and the invalid `"foo"` makes `learn`
raise. -/
theorem configuration_error_boundaries_instance :
    ("samples" : String) ≠ "episodes" ∧
    (Core.evaluate mEx2 agEx 1 "samples" (some [()]) cEx0 =
      .error .configurationError) ∧
    ("foo" : String) ≠ "samples" ∧ ("foo" : String) ≠ "episodes" ∧
    (Core.learn mEx2 agEx 1 1 1 "foo" cEx0 = .error .configurationError) :=
  ⟨by decide,
   (configuration_error_boundaries mEx2 agEx 1 1 1 "samples" cEx0
     (by decide)).2.1 [()],
   by decide, by decide,
   (configuration_error_boundaries mEx2 agEx 1 1 1 "foo" cEx0
     (by decide)).1 (by decide)⟩

/-- C6: with `lambda = 0` and a transition processed on an all-zero trace
(i.e. right after an episode start), the trace after the visitation update
is the one-hot vector at `(s, a)`, the table changes only at `(s, a)` by
`alpha(s,a) * (r + gamma * Q[s2, a2] - Q[s, a])`, and the decayed trace
after the full update is identically zero again — one-step SARSA. -/
theorem lambda_zero_one_step_sarsa [DecidableEq S] [DecidableEq A]
    (gamma : ℚ) (alpha : S → A → ℚ) (next_action : A)
    (st : SarsaState S A) (s : S) (a : A) (r : ℚ) (s' : S)
    (he : ∀ x y, st.e x y = 0) :
    (EligibilityTrace.replacingUpdate st.e s a =
      fun x y => if x = s ∧ y = a then 1 else 0) ∧
    ((SARSALambda._update gamma 0 alpha next_action st s a r s' false).Q =
      fun x y => st.Q x y +
        (if x = s ∧ y = a then
          alpha s a * (r + gamma * st.Q s' next_action - st.Q s a)
         else 0)) ∧
    (∀ (st' : SarsaState S A) (s₁ : S) (a₁ : A) (r₁ : ℚ) (s₁' : S)
      (na₁ : A) (ab : Bool),
      (SARSALambda._update gamma 0 alpha na₁ st' s₁ a₁ r₁ s₁' ab).e =
        fun _ _ => 0) := by
  refine ⟨?_, ?_, ?_⟩
  · funext x y
    simp only [EligibilityTrace.replacingUpdate]
    by_cases hxy : x = s ∧ y = a <;> simp [hxy, he]
  · funext x y
    simp only [SARSALambda._update, EligibilityTrace.replacingUpdate,
      SARSALambda.qNext]
    by_cases hxy : x = s ∧ y = a <;> simp [hxy, he x y]
  · intro st' s₁ a₁ r₁ s₁' na₁ ab
    funext x y
    simp [SARSALambda._update]

/-- Witness for C6 on the zero-initialized 2×2 SARSA state. -/
theorem lambda_zero_one_step_sarsa_instance :
    (EligibilityTrace.replacingUpdate st0Ex.e 0 1 =
      fun x y => if x = 0 ∧ y = 1 then 1 else 0) ∧
    ((SARSALambda._update (1/2) 0 (fun _ _ => (1/2 : ℚ)) 1 st0Ex
        0 1 3 1 false).Q =
      fun x y => st0Ex.Q x y +
        (if x = 0 ∧ y = 1 then
          (1/2 : ℚ) * (3 + (1/2) * st0Ex.Q 1 1 - st0Ex.Q 0 1)
         else 0)) :=
  ⟨(lambda_zero_one_step_sarsa (1/2) (fun _ _ => (1/2 : ℚ)) 1 st0Ex
      0 1 3 1 (fun _ _ => rfl)).1,
   (lambda_zero_one_step_sarsa (1/2) (fun _ _ => (1/2 : ℚ)) 1 st0Ex
      0 1 3 1 (fun _ _ => rfl)).2.1⟩

theorem EligibilityTrace.replacingUpdate_unit [DecidableEq S]
    [DecidableEq A] (e : S → A → ℚ)
    (hinv : ∀ x y, 0 ≤ e x y ∧ e x y ≤ 1) (s : S) (a : A) (x : S) (y : A) :
    0 ≤ EligibilityTrace.replacingUpdate e s a x y ∧
      EligibilityTrace.replacingUpdate e s a x y ≤ 1 := by
  unfold EligibilityTrace.replacingUpdate
  split
  · exact ⟨zero_le_one, le_refl 1⟩
  · exact hinv x y

theorem SARSALambda.applyInput_trace_unit [DecidableEq S] [DecidableEq A]
    (gamma lambda_coeff : ℚ) (alpha : S → A → ℚ)
    (hg0 : 0 ≤ gamma) (hg1 : gamma ≤ 1)
    (hl0 : 0 ≤ lambda_coeff) (hl1 : lambda_coeff ≤ 1)
    (st : SarsaState S A) (hinv : ∀ x y, 0 ≤ st.e x y ∧ st.e x y ≤ 1)
    (u : UpdateInput S A) :
    ∀ x y,
      0 ≤ (SARSALambda.applyInput gamma lambda_coeff alpha st u).e x y ∧
      (SARSALambda.applyInput gamma lambda_coeff alpha st u).e x y ≤ 1 := by
  intro x y
  have h1 := EligibilityTrace.replacingUpdate_unit st.e hinv
    u.state u.action x y
  have hgl0 : 0 ≤ gamma * lambda_coeff := mul_nonneg hg0 hl0
  have hgl1 : gamma * lambda_coeff ≤ 1 := by nlinarith
  show 0 ≤ EligibilityTrace.replacingUpdate st.e u.state u.action x y *
      (gamma * lambda_coeff) ∧
    EligibilityTrace.replacingUpdate st.e u.state u.action x y *
      (gamma * lambda_coeff) ≤ 1
  constructor
  · exact mul_nonneg h1.1 hgl0
  · nlinarith [h1.1, h1.2]

theorem SARSALambda.runUpdates_trace_unit [DecidableEq S] [DecidableEq A]
    (gamma lambda_coeff : ℚ) (alpha : S → A → ℚ)
    (hg0 : 0 ≤ gamma) (hg1 : gamma ≤ 1)
    (hl0 : 0 ≤ lambda_coeff) (hl1 : lambda_coeff ≤ 1) :
    ∀ (us : List (UpdateInput S A)) (st : SarsaState S A),
      (∀ x y, 0 ≤ st.e x y ∧ st.e x y ≤ 1) →
      ∀ x y,
        0 ≤ (SARSALambda.runUpdates gamma lambda_coeff alpha st us).e x y ∧
        (SARSALambda.runUpdates gamma lambda_coeff alpha st us).e x y ≤ 1 := by
  intro us
  induction us with
  | nil => exact fun st hinv => hinv
  | cons u rest ih =>
    intro st hinv
    exact ih (SARSALambda.applyInput gamma lambda_coeff alpha st u)
      (SARSALambda.applyInput_trace_unit gamma lambda_coeff alpha
        hg0 hg1 hl0 hl1 st hinv u)

/-- C7: under the replacing trace variant with `gamma, lambda ∈ [0,1]` and
the trace zeroed at episode start, every trace entry lies in `[0,1]`
immediately after every visitation update, at any position (`pre` processed
transitions, `u` the current one) of any episode from any starting state. -/
theorem replacing_trace_unit_interval [DecidableEq S] [DecidableEq A]
    (gamma lambda_coeff : ℚ) (alpha : S → A → ℚ)
    (hg0 : 0 ≤ gamma) (hg1 : gamma ≤ 1)
    (hl0 : 0 ≤ lambda_coeff) (hl1 : lambda_coeff ≤ 1)
    (st0 : SarsaState S A) (pre : List (UpdateInput S A))
    (u : UpdateInput S A) (x : S) (y : A) :
    0 ≤ EligibilityTrace.replacingUpdate
        (SARSALambda.runUpdates gamma lambda_coeff alpha
          (SARSALambda.episode_start st0) pre).e u.state u.action x y ∧
    EligibilityTrace.replacingUpdate
        (SARSALambda.runUpdates gamma lambda_coeff alpha
          (SARSALambda.episode_start st0) pre).e u.state u.action x y ≤ 1 :=
  EligibilityTrace.replacingUpdate_unit _
    (SARSALambda.runUpdates_trace_unit gamma lambda_coeff alpha
      hg0 hg1 hl0 hl1 pre (SARSALambda.episode_start st0)
      (fun _ _ => ⟨le_refl 0, zero_le_one⟩))
    u.state u.action x y

/-- Witness for C7 with `gamma = lambda = 1/2` after an empty prefix. -/
theorem replacing_trace_unit_interval_instance :
    (0 : ℚ) ≤ 1/2 ∧ (1/2 : ℚ) ≤ 1 ∧
    (0 ≤ EligibilityTrace.replacingUpdate
        (SARSALambda.runUpdates (1/2) (1/2) (fun _ _ => (1/2 : ℚ))
          (SARSALambda.episode_start st0Ex) []).e 0 1 0 0 ∧
     EligibilityTrace.replacingUpdate
        (SARSALambda.runUpdates (1/2) (1/2) (fun _ _ => (1/2 : ℚ))
          (SARSALambda.episode_start st0Ex) []).e 0 1 0 0 ≤ 1) :=
  ⟨by norm_num, by norm_num,
    replacing_trace_unit_interval (1/2) (1/2) (fun _ _ => (1/2 : ℚ))
      (by norm_num) (by norm_num) (by norm_num) (by norm_num) st0Ex []
      ⟨0, 1, 3, 1, 0, false⟩ 0 0⟩

/-- C8: `learn` dispatches its two valid modes to the iteration loops; in
each iteration the collected dataset is passed to `agent.fit` first and
afterwards every registered callback receives that same dataset in
registration order (the `learnIterationBlock` shape of the event trace);
`_total_steps` grows by exactly one per iteration in samples mode and not
at all in episodes mode. -/
theorem learn_fit_before_callbacks_total_steps (m : MDP σ α)
    (ag : Agent θ σ α) (n_iterations how_many n_fit_steps : ℕ)
    (c : Core θ σ α γc) :
    (Core.learn m ag n_iterations how_many n_fit_steps "samples" c =
      .ok (Core.learnSamplesLoop m ag how_many n_fit_steps
        n_iterations c)) ∧
    (Core.learn m ag n_iterations how_many n_fit_steps "episodes" c =
      .ok (Core.learnEpisodesLoop m ag how_many n_fit_steps
        n_iterations c)) ∧
    ((Core.learnSamplesLoop m ag how_many n_fit_steps
        n_iterations c).1._total_steps = c._total_steps + n_iterations) ∧
    ((Core.learnEpisodesLoop m ag how_many n_fit_steps
        n_iterations c).1._total_steps = c._total_steps) ∧
    (∃ dss : List (List (Transition σ α)), dss.length = n_iterations ∧
      (Core.learnSamplesLoop m ag how_many n_fit_steps
        n_iterations c).2 =
        (dss.map (learnIterationBlock n_fit_steps c.callbacks)).flatten) ∧
    (∃ dss : List (List (Transition σ α)), dss.length = n_iterations ∧
      (Core.learnEpisodesLoop m ag how_many n_fit_steps
        n_iterations c).2 =
        (dss.map (learnIterationBlock n_fit_steps c.callbacks)).flatten) :=
  ⟨by simp [Core.learn], by simp [Core.learn],
   Core.learnSamplesLoop_total_steps m ag how_many n_fit_steps
     n_iterations c,
   Core.learnEpisodesLoop_total_steps m ag how_many n_fit_steps
     n_iterations c,
   Core.learnSamplesLoop_events m ag how_many n_fit_steps
     n_iterations c c.callbacks rfl,
   Core.learnEpisodesLoop_events m ag how_many n_fit_steps
     n_iterations c c.callbacks rfl⟩
